import Mathlib

/-!
Verification of the core logic of a produce-freshness scanner application
(`app.py`): a JSON scan store (load / append / save / clear), substring-based
freshness categorization, model/label loading, image preprocessing, and
top-1 (argmax) inference over a probability vector.

Python dictionaries are modelled as association lists in insertion order with
unique keys; the persisted JSON file is modelled as `Option Json` (`none` when
the file does not exist); external library behaviour (TensorFlow model
forward pass, PIL convert/resize) is modelled by universally quantified
function parameters constrained only by the libraries' documented contracts.
-/

namespace FFC2

/-- A JSON document, as produced by parsing the scan-data file. -/
inductive Json where
  | null : Json
  | bool : Bool → Json
  | num : ℚ → Json
  | str : String → Json
  | arr : List Json → Json
  | obj : List (String × Json) → Json

/-- The in-memory scan store `st.session_state.scan_data`: a mapping from
label string to the ordered list of confirmation-timestamp strings,
modelled as an association list in insertion order with unique keys. -/
abbrev ScanData := List (String × List String)

/-- Serialization of a scan-store mapping into a JSON document, as performed
by `json.dump` inside `save_scan_data` (app.py line 82). -/
def encodeScan (d : ScanData) : Json :=
  Json.obj (d.map (fun kv => (kv.1, Json.arr (kv.2.map Json.str))))

/-- Parse a JSON array back into a timestamp list (models `json.load`
recovering a list of strings). -/
def decodeTimes : List Json → Option (List String)
  | [] => some []
  | Json.str s :: rest => (decodeTimes rest).map (fun l => s :: l)
  | _ => none

/-- Parse JSON object entries back into scan-store entries. -/
def decodeEntries : List (String × Json) → Option ScanData
  | [] => some []
  | (k, Json.arr ts) :: rest =>
      match decodeTimes ts with
      | some l => (decodeEntries rest).map (fun r => (k, l) :: r)
      | none => none
  | _ => none

/-- Parse a JSON document into a scan-store mapping (models `json.load` on a
document written by `save_scan_data`). -/
def decodeScan : Json → Option ScanData
  | Json.obj entries => decodeEntries entries
  | _ => none

/-- `save_scan_data` (app.py lines 80-82): serializes the full mapping to the
fixed path, overwriting it completely.  The resulting file state is the
serialized document. -/
def save_scan_data (data : ScanData) : Option Json :=
  some (encodeScan data)

/-- `load_scan_data` (app.py lines 73-77): if the file exists, return the
JSON document parsed from it (no schema validation); otherwise return the
empty mapping `{}`. -/
def load_scan_data (fileState : Option Json) : Json :=
  match fileState with
  | some j => j
  | none => Json.obj []

/-- Dictionary lookup `d[k]` / `d.get(k)` on the scan store. -/
def lookupScan : ScanData → String → Option (List String)
  | [], _ => none
  | (k, v) :: rest, key => if k = key then some v else lookupScan rest key

/-- The Confirm & Save mutation (app.py lines 156-159): if `label` is not a
key of the store, insert `label ↦ []` at the end; then append `t` to the
list at `label`. -/
def appendScan : ScanData → String → String → ScanData
  | [], label, t => [(label, [t])]
  | (k, v) :: rest, label, t =>
      if k = label then (k, v ++ [t]) :: rest
      else (k, v) :: appendScan rest label t

/-- The Clear All Data mutation (app.py line 228):
`st.session_state.scan_data = {}`. -/
def clearAll (_d : ScanData) : ScanData := []

/-- Store invariant: every present key maps to a non-empty timestamp list. -/
def scanInv (d : ScanData) : Prop :=
  ∀ k v, (k, v) ∈ d → v ≠ []

/-- Whether `pat` matches a leading segment of `l` (character-wise). -/
def headMatch : List Char → List Char → Bool
  | [], _ => true
  | _ :: _, [] => false
  | a :: as, b :: bs => a == b && headMatch as bs

/-- Whether `needle` occurs contiguously somewhere in the second list. -/
def occursIn (needle : List Char) : List Char → Bool
  | [] => needle.isEmpty
  | b :: bs => headMatch needle (b :: bs) || occursIn needle bs

/-- Python's substring test `pat in s`. -/
def containsSub (s pat : String) : Bool :=
  occursIn pat.toList s.toList

lemma decodeTimes_map_str (l : List String) :
    decodeTimes (l.map Json.str) = some l := by
  induction l with
  | nil => rfl
  | cons s rest ih => simp [decodeTimes, ih]

lemma decode_encodeScan (d : ScanData) :
    decodeScan (encodeScan d) = some d := by
  induction d with
  | nil => rfl
  | cons kv rest ih =>
      obtain ⟨k, v⟩ := kv
      simp only [encodeScan, decodeScan, List.map_cons, decodeEntries,
        decodeTimes_map_str]
      simpa [encodeScan, decodeScan] using ih

lemma lookup_appendScan_self (d : ScanData) (label t : String) :
    lookupScan (appendScan d label t) label
      = some ((lookupScan d label).getD [] ++ [t]) := by
  induction d with
  | nil => simp [appendScan, lookupScan]
  | cons kv rest ih =>
      obtain ⟨k, v⟩ := kv
      by_cases hk : k = label
      · simp [appendScan, lookupScan, hk]
      · simp [appendScan, lookupScan, hk, ih]

lemma lookup_appendScan_other (d : ScanData) (label t k : String)
    (hk : k ≠ label) :
    lookupScan (appendScan d label t) k = lookupScan d k := by
  induction d with
  | nil => simp [appendScan, lookupScan, Ne.symm hk]
  | cons kv rest ih =>
      obtain ⟨k0, v0⟩ := kv
      by_cases h0 : k0 = label
      · subst h0
        simp [appendScan, lookupScan, Ne.symm hk]
      · by_cases h1 : k0 = k
        · subst h1
          simp [appendScan, lookupScan, h0]
        · simp [appendScan, lookupScan, h0, h1, ih]

lemma scanInv_appendScan (d : ScanData) (label t : String) (h : scanInv d) :
    scanInv (appendScan d label t) := by
  induction d with
  | nil =>
      intro k v hv
      simp only [appendScan, List.mem_singleton, Prod.mk.injEq] at hv
      rw [hv.2]
      simp
  | cons kv rest ih =>
      obtain ⟨k0, v0⟩ := kv
      by_cases h0 : k0 = label
      · subst h0
        intro k v hv
        simp [appendScan] at hv
        rcases hv with ⟨_, hval⟩ | hv
        · rw [hval]; simp
        · exact h k v (List.mem_cons_of_mem _ hv)
      · intro k v hv
        simp [appendScan, h0] at hv
        rcases hv with ⟨hk, hval⟩ | hv
        · rw [hval]
          exact h k0 v0 (List.mem_cons_self _ _)
        · exact ih (fun a b hab => h a b (List.mem_cons_of_mem _ hab)) k v hv

/-- C2: for every store state, label and timestamp, the confirm action
`appendScan` followed by `save_scan_data` and `load_scan_data` yields a
mapping whose list for `label` now ends in `t` and is exactly one longer
than before, while every other label's list is unchanged. -/
theorem C2_append_then_load (d : ScanData) (label t : String) :
    decodeScan (load_scan_data (save_scan_data (appendScan d label t)))
      = some (appendScan d label t) ∧
    (lookupScan (appendScan d label t) label).getD []
      = (lookupScan d label).getD [] ++ [t] ∧
    ((lookupScan (appendScan d label t) label).getD []).getLast? = some t ∧
    ((lookupScan (appendScan d label t) label).getD []).length
      = ((lookupScan d label).getD []).length + 1 ∧
    ∀ k, k ≠ label →
      lookupScan (appendScan d label t) k = lookupScan d k := by
  refine ⟨decode_encodeScan _, ?_, ?_, ?_, ?_⟩
  · simp [lookup_appendScan_self]
  · simp [lookup_appendScan_self]
  · simp [lookup_appendScan_self]
  · intro k hk
    exact lookup_appendScan_other d label t k hk

theorem C2_append_then_load_witness :
    ("Apple_Rotten" : String) ≠ "Apple_Healthy" ∧
    lookupScan (appendScan [("Apple_Rotten", ["s1"])] "Apple_Healthy" "s2")
        "Apple_Rotten"
      = lookupScan [("Apple_Rotten", ["s1"])] "Apple_Rotten" :=
  ⟨by decide,
   (C2_append_then_load [("Apple_Rotten", ["s1"])] "Apple_Healthy" "s2").2.2.2.2
     "Apple_Rotten" (by decide)⟩

/-- C5: for every prior store state, the Clear All Data action (replace the
document with the empty mapping and save) followed by `load_scan_data`
yields the empty mapping. -/
theorem C5_clear_then_load (d : ScanData) :
    load_scan_data (save_scan_data (clearAll d)) = Json.obj [] := rfl

/-- C7: `load_scan_data` returns the empty mapping when the scan-data file
does not exist, and otherwise returns the parsed JSON document unchanged
(no schema validation: whatever document is stored is returned as is). -/
theorem C7_load_missing_or_parsed (fileState : Option Json) :
    (fileState = none → load_scan_data fileState = Json.obj []) ∧
    (∀ j, fileState = some j → load_scan_data fileState = j) := by
  constructor
  · intro h; rw [h]; rfl
  · intro j h; rw [h]; rfl

theorem C7_load_missing_or_parsed_witness :
    load_scan_data none = Json.obj [] ∧
    load_scan_data (some (Json.num 3)) = Json.num 3 :=
  ⟨(C7_load_missing_or_parsed none).1 rfl,
   (C7_load_missing_or_parsed (some (Json.num 3))).2 (Json.num 3) rfl⟩

/-- C9: starting from any store satisfying the invariant that every present
key maps to a non-empty timestamp list, both mutations (`appendScan` and
`clearAll`) preserve the invariant, and `appendScan` never removes an
entry: every key present before is present after. -/
theorem C9_store_invariant (d : ScanData) (label t : String)
    (h : scanInv d) :
    scanInv (appendScan d label t) ∧ scanInv (clearAll d) ∧
    ∀ k, lookupScan d k ≠ none →
      lookupScan (appendScan d label t) k ≠ none := by
  refine ⟨scanInv_appendScan d label t h, ?_, ?_⟩
  · intro k v hv
    simp [clearAll] at hv
  · intro k hk
    by_cases hkl : k = label
    · rw [hkl, lookup_appendScan_self]
      simp
    · rw [lookup_appendScan_other d label t k hkl]
      exact hk

theorem C9_store_invariant_witness :
    scanInv [("Apple_Healthy", ["s1"])] ∧
    scanInv (appendScan [("Apple_Healthy", ["s1"])] "Apple_Rotten" "s2") :=
  have h : scanInv [("Apple_Healthy", ["s1"])] := by
    intro k v hv
    simp only [List.mem_singleton, Prod.mk.injEq] at hv
    rw [hv.2]
    simp
  ⟨h, (C9_store_invariant [("Apple_Healthy", ["s1"])] "Apple_Rotten" "s2" h).1⟩

/-- C10: save followed by load is a round-trip identity: for every mapping
from label strings to timestamp-string lists, serializing it with
`save_scan_data` and reading it back with `load_scan_data` parses to a
mapping equal to the original. -/
theorem C10_save_load_roundtrip (d : ScanData) :
    decodeScan (load_scan_data (save_scan_data d)) = some d :=
  decode_encodeScan d

/-- A transient prediction held in session state
(`st.session_state.prediction`, app.py line 128). -/
structure Prediction where
  label : String
  prob : ℚ

/-- Result-view freshness test (app.py line 146): `"Healthy" in label`. -/
def is_healthy (label : String) : Bool :=
  containsSub label "Healthy"

/-- Result-view category string (app.py line 147). -/
def categoryOf (p : Prediction) : String :=
  if is_healthy p.label then "Segar (Fresh)" else "Tidak Segar (Not Fresh)"

/-- The displayed fresh tally (app.py lines 178 and 210): stored labels
containing `"Healthy"`, each with its confirmation count. -/
def healthy_items (d : ScanData) : List (String × ℕ) :=
  (d.filter (fun kv => containsSub kv.1 "Healthy")).map
    (fun kv => (kv.1, kv.2.length))

/-- The displayed not-fresh tally (app.py lines 191 and 219): stored labels
containing `"Rotten"`, each with its confirmation count. -/
def rotten_items (d : ScanData) : List (String × ℕ) :=
  (d.filter (fun kv => containsSub kv.1 "Rotten")).map
    (fun kv => (kv.1, kv.2.length))

/-- C1 (counterexample): the stored label "Banana" contains neither marker
substring; the category rule classifies it "not fresh", yet it appears in
neither displayed tally group, so the tally groups do not classify every
stored label by the Healthy-substring rule as the claim states. -/
theorem C1_counterexample_banana :
    categoryOf ⟨"Banana", 9 / 10⟩ = "Tidak Segar (Not Fresh)" ∧
    healthy_items [("Banana", ["s1"])] = [] ∧
    rotten_items [("Banana", ["s1"])] = [] := by
  refine ⟨?_, ?_, ?_⟩ <;> decide

/-- C1 (amended): category derivation is a pure function of label text —
a label containing "Healthy" is categorized "Segar (Fresh)" and any other
label "Tidak Segar (Not Fresh)", regardless of the probability; the fresh
tally group contains exactly the stored labels containing "Healthy", while
the not-fresh tally group contains exactly the stored labels containing
"Rotten" (not the complement of the fresh rule), each with its count. -/
theorem C1_category_and_tallies (label : String) (p q : ℚ) (d : ScanData) :
    (containsSub label "Healthy" = true →
      categoryOf ⟨label, p⟩ = "Segar (Fresh)") ∧
    (containsSub label "Healthy" = false →
      categoryOf ⟨label, p⟩ = "Tidak Segar (Not Fresh)") ∧
    categoryOf ⟨label, p⟩ = categoryOf ⟨label, q⟩ ∧
    (∀ k n, (k, n) ∈ healthy_items d ↔
      ∃ v, (k, v) ∈ d ∧ containsSub k "Healthy" = true ∧ n = v.length) ∧
    (∀ k n, (k, n) ∈ rotten_items d ↔
      ∃ v, (k, v) ∈ d ∧ containsSub k "Rotten" = true ∧ n = v.length) := by
  refine ⟨?_, ?_, rfl, ?_, ?_⟩
  · intro hh
    simp [categoryOf, is_healthy, hh]
  · intro hh
    simp [categoryOf, is_healthy, hh]
  · intro k n
    simp only [healthy_items, List.mem_map, List.mem_filter]
    constructor
    · rintro ⟨⟨a, b⟩, ⟨hab, hpred⟩, heq⟩
      obtain ⟨h1, h2⟩ := Prod.mk.injEq .. ▸ heq
      exact ⟨b, h1 ▸ hab, h1 ▸ hpred, h2.symm⟩
    · rintro ⟨v, hv, hc, hn⟩
      exact ⟨(k, v), ⟨hv, hc⟩, by simp [hn]⟩
  · intro k n
    simp only [rotten_items, List.mem_map, List.mem_filter]
    constructor
    · rintro ⟨⟨a, b⟩, ⟨hab, hpred⟩, heq⟩
      obtain ⟨h1, h2⟩ := Prod.mk.injEq .. ▸ heq
      exact ⟨b, h1 ▸ hab, h1 ▸ hpred, h2.symm⟩
    · rintro ⟨v, hv, hc, hn⟩
      exact ⟨(k, v), ⟨hv, hc⟩, by simp [hn]⟩

theorem C1_category_and_tallies_witness :
    containsSub "Apple_Healthy" "Healthy" = true ∧
    categoryOf ⟨"Apple_Healthy", 1 / 2⟩ = "Segar (Fresh)" :=
  ⟨by decide,
   (C1_category_and_tallies "Apple_Healthy" (1 / 2) (1 / 4) []).1 (by decide)⟩

/-- Scan underlying `np.argmax`: walk the remaining entries carrying the
current position `i`, the index `bi` of the running best and its value
`bv`; a strictly greater value replaces the best, so ties keep the first
occurrence, as `np.argmax` documents. -/
def argmaxGo : List ℚ → ℕ → ℕ → ℚ → ℕ
  | [], _, bi, _ => bi
  | x :: xs, i, bi, bv =>
      if bv < x then argmaxGo xs (i + 1) i x else argmaxGo xs (i + 1) bi bv

/-- The running maximum value along the same scan as `argmaxGo`. -/
def argmaxValGo : List ℚ → ℚ → ℚ
  | [], bv => bv
  | x :: xs, bv => if bv < x then argmaxValGo xs x else argmaxValGo xs bv

/-- `np.argmax` (app.py line 124): index of the first occurrence of the
maximum of the vector (0 on the empty vector, where numpy instead fails). -/
def np_argmax : List ℚ → ℕ
  | [] => 0
  | x :: xs => argmaxGo xs 1 0 x

/-- Python `inv_map.get(key, default)` resolved against the association
list, with the default supplied by the caller via `Option.getD`. -/
def invGet : List (Int × String) → Int → Option String
  | [], _ => none
  | (k, v) :: rest, key => if k = key then some v else invGet rest key

/-- The inference step of the Scan Image handler (app.py lines 124-126):
take the argmax index of the probability row, resolve it through the
label mapping with the stringified index as fallback, and report the
probability at that index. -/
def inferStep (probs : List ℚ) (inv_map : List (Int × String)) : Prediction :=
  ⟨(invGet inv_map (Int.ofNat (np_argmax probs))).getD
      (toString (np_argmax probs)),
   probs.getD (np_argmax probs) 0⟩

lemma le_argmaxValGo (xs : List ℚ) : ∀ bv : ℚ, bv ≤ argmaxValGo xs bv := by
  induction xs with
  | nil => intro bv; exact le_refl _
  | cons x xs ih =>
      intro bv
      by_cases hx : bv < x
      · simpa [argmaxValGo, hx] using le_trans (le_of_lt hx) (ih x)
      · simpa [argmaxValGo, hx] using ih bv

lemma getD_le_argmaxValGo (xs : List ℚ) :
    ∀ (bv : ℚ) (j : ℕ), j < xs.length → xs.getD j 0 ≤ argmaxValGo xs bv := by
  induction xs with
  | nil => intro bv j hj; exact absurd hj (Nat.not_lt_zero j)
  | cons x xs ih =>
      intro bv j hj
      cases j with
      | zero =>
          by_cases hx : bv < x
          · simpa [argmaxValGo, hx] using le_argmaxValGo xs x
          · simpa [argmaxValGo, hx] using
              le_trans (le_of_not_lt hx) (le_argmaxValGo xs bv)
      | succ k =>
          have hk : k < xs.length := Nat.lt_of_succ_lt_succ hj
          by_cases hx : bv < x
          · simpa [argmaxValGo, hx] using ih x k hk
          · simpa [argmaxValGo, hx] using ih bv k hk

lemma argmaxGo_bound (xs : List ℚ) :
    ∀ (i bi : ℕ) (bv : ℚ), argmaxGo xs i bi bv = bi ∨
      (i ≤ argmaxGo xs i bi bv ∧ argmaxGo xs i bi bv < i + xs.length) := by
  induction xs with
  | nil => intro i bi bv; exact Or.inl rfl
  | cons x xs ih =>
      intro i bi bv
      by_cases hx : bv < x
      · rcases ih (i + 1) i x with h | ⟨h1, h2⟩
        · refine Or.inr ?_
          rw [argmaxGo, if_pos hx, h]
          exact ⟨le_refl i, by simp [Nat.lt_add_of_pos_right, Nat.succ_pos]⟩
        · refine Or.inr ?_
          rw [argmaxGo, if_pos hx]
          exact ⟨le_trans (Nat.le_succ i) h1,
            by simpa [Nat.add_comm, Nat.add_assoc, Nat.add_left_comm] using h2⟩
      · rcases ih (i + 1) bi bv with h | ⟨h1, h2⟩
        · refine Or.inl ?_
          rw [argmaxGo, if_neg hx, h]
        · refine Or.inr ?_
          rw [argmaxGo, if_neg hx]
          exact ⟨le_trans (Nat.le_succ i) h1,
            by simpa [Nat.add_comm, Nat.add_assoc, Nat.add_left_comm] using h2⟩

lemma argmaxGo_getD (xs : List ℚ) :
    ∀ (l : List ℚ) (i bi : ℕ) (bv : ℚ),
      (∀ j, j < xs.length → l.getD (i + j) 0 = xs.getD j 0) →
      l.getD bi 0 = bv →
      l.getD (argmaxGo xs i bi bv) 0 = argmaxValGo xs bv := by
  induction xs with
  | nil => intro l i bi bv _ hbi; exact hbi
  | cons x xs ih =>
      intro l i bi bv hsuf hbi
      have hx0 : l.getD i 0 = x := by
        have := hsuf 0 (Nat.succ_pos _)
        simpa using this
      have hshift : ∀ j, j < xs.length → l.getD (i + 1 + j) 0 = xs.getD j 0 := by
        intro j hj
        have := hsuf (j + 1) (Nat.succ_lt_succ hj)
        simpa [Nat.add_comm, Nat.add_assoc, Nat.add_left_comm] using this
      by_cases hx : bv < x
      · rw [argmaxGo, if_pos hx, argmaxValGo, if_pos hx]
        exact ih l (i + 1) i x hshift hx0
      · rw [argmaxGo, if_neg hx, argmaxValGo, if_neg hx]
        exact ih l (i + 1) bi bv hshift hbi

lemma np_argmax_lt (probs : List ℚ) (hne : probs ≠ []) :
    np_argmax probs < probs.length := by
  cases probs with
  | nil => exact absurd rfl hne
  | cons x xs =>
      rcases argmaxGo_bound xs 1 0 x with h | ⟨_, h2⟩
      · rw [np_argmax, h]
        exact Nat.succ_pos _
      · rw [np_argmax]
        simpa [Nat.add_comm] using h2

lemma getD_np_argmax (probs : List ℚ) (j : ℕ) (hj : j < probs.length) :
    probs.getD j 0 ≤ probs.getD (np_argmax probs) 0 := by
  cases probs with
  | nil => exact absurd hj (Nat.not_lt_zero j)
  | cons x xs =>
      have hval : (x :: xs).getD (np_argmax (x :: xs)) 0 = argmaxValGo xs x := by
        rw [np_argmax]
        refine argmaxGo_getD xs (x :: xs) 1 0 x ?_ rfl
        intro j hjx
        simp [Nat.add_comm]
      rw [hval]
      cases j with
      | zero => simpa using le_argmaxValGo xs x
      | succ k =>
          have hk : k < xs.length := Nat.lt_of_succ_lt_succ hj
          simpa using getD_le_argmaxValGo xs x k hk

lemma invGet_mem_values (m : List (Int × String)) (key : Int) (v : String)
    (h : invGet m key = some v) : v ∈ m.map Prod.snd := by
  induction m with
  | nil => exact absurd h (by simp [invGet])
  | cons kv rest ih =>
      obtain ⟨k0, v0⟩ := kv
      by_cases hk : k0 = key
      · rw [invGet, if_pos hk] at h
        simp [Option.some.injEq] at h
        simp [h]
      · rw [invGet, if_neg hk] at h
        simp [ih h]

/-- C4: the inference step selects the index of the (first) maximum of the
probability vector with no confidence threshold, resolves it through the
integer→label mapping with the stringified index as fallback when the
index is unmapped, and reports the probability value at that index. -/
theorem C4_top1_selection (probs : List ℚ) (inv_map : List (Int × String))
    (hne : probs ≠ []) :
    np_argmax probs < probs.length ∧
    (∀ j, j < probs.length →
      probs.getD j 0 ≤ probs.getD (np_argmax probs) 0) ∧
    (inferStep probs inv_map).prob = probs.getD (np_argmax probs) 0 ∧
    (∀ v, invGet inv_map (Int.ofNat (np_argmax probs)) = some v →
      (inferStep probs inv_map).label = v) ∧
    (invGet inv_map (Int.ofNat (np_argmax probs)) = none →
      (inferStep probs inv_map).label = toString (np_argmax probs)) := by
  refine ⟨np_argmax_lt probs hne, getD_np_argmax probs, rfl, ?_, ?_⟩
  · intro v hv
    show (invGet inv_map (Int.ofNat (np_argmax probs))).getD
        (toString (np_argmax probs)) = v
    rw [hv, Option.getD_some]
  · intro hv
    show (invGet inv_map (Int.ofNat (np_argmax probs))).getD
        (toString (np_argmax probs)) = toString (np_argmax probs)
    rw [hv, Option.getD_none]

theorem C4_top1_selection_witness :
    ([(1 : ℚ) / 4, 3 / 4] ≠ []) ∧
    np_argmax [(1 : ℚ) / 4, 3 / 4] < 2 ∧
    (inferStep [(1 : ℚ) / 4, 3 / 4]
        [((0 : Int), "Apple_Healthy"), (1, "Apple_Rotten")]).prob
      = ([(1 : ℚ) / 4, 3 / 4]).getD (np_argmax [(1 : ℚ) / 4, 3 / 4]) 0 :=
  ⟨by decide,
   (C4_top1_selection [(1 : ℚ) / 4, 3 / 4]
      [((0 : Int), "Apple_Healthy"), (1, "Apple_Rotten")] (by decide)).1,
   (C4_top1_selection [(1 : ℚ) / 4, 3 / 4]
      [((0 : Int), "Apple_Healthy"), (1, "Apple_Rotten")] (by decide)).2.2.1⟩

/-- An in-memory image (PIL `Image.Image`): dimensions, channel count, and
the pixel intensity (0..255) at column `x`, row `y`, channel `c`. -/
structure PILImage where
  width : ℕ
  height : ℕ
  channels : ℕ
  pix : ℕ → ℕ → ℕ → ℕ

/-- A numeric tensor as produced by `np.array` plus `np.expand_dims`:
batch of rows of columns of channel values. -/
abbrev Tensor := List (List (List (List ℚ)))

/-- `IMG_SIZE` (app.py line 12). -/
def IMG_SIZE : ℕ × ℕ := (224, 224)

/-- `np.array(image).astype(np.float32)` on an image, divided by 255 when
`do_rescale` (app.py lines 66-68): a (height, width, channels) array in
row-major order. -/
def np_image_array (img : PILImage) (do_rescale : Bool) :
    List (List (List ℚ)) :=
  (List.range img.height).map (fun y =>
    (List.range img.width).map (fun x =>
      (List.range img.channels).map (fun c =>
        if do_rescale then (img.pix x y c : ℚ) / 255
        else (img.pix x y c : ℚ))))

/-- `preprocess_image` (app.py lines 64-70), parameterized by the external
PIL operation `convertResize` performing `image.convert("RGB")` followed by
`image.resize(target_size)`; its documented contract (the result has the
target width and height and exactly 3 channels) is taken as a hypothesis in
the theorems.  The resulting array is divided by 255 exactly when
`do_rescale`, and `np.expand_dims(arr, axis=0)` prepends the batch
dimension. -/
def preprocess_image (convertResize : PILImage → ℕ × ℕ → PILImage)
    (image : PILImage) (target_size : ℕ × ℕ) (do_rescale : Bool) : Tensor :=
  [np_image_array (convertResize image target_size) do_rescale]

/-- The Scan Image handler core (app.py lines 117-128), parameterized by
the external TensorFlow forward pass `modelPredict` (`model.predict`,
returning a batch of probability rows; the handler reads row 0). -/
def scan_image (convertResize : PILImage → ℕ × ℕ → PILImage)
    (modelPredict : Tensor → List (List ℚ))
    (inv_map : List (Int × String)) (has_rescaling : Bool)
    (img : PILImage) : Prediction :=
  inferStep
    ((modelPredict
        (preprocess_image convertResize img IMG_SIZE (!has_rescaling))).getD
      0 [])
    inv_map

/-- C3: for every image and loaded model whose probability row over the
preprocessed tensor is non-empty with entries in [0,1] (softmax output)
and whose label mapping covers every class index of that row, the scan
pipeline (preprocess then infer) produces a label that is one of the
mapping's values and a probability in [0,1]. -/
theorem C3_scan_label_in_mapping
    (convertResize : PILImage → ℕ × ℕ → PILImage)
    (modelPredict : Tensor → List (List ℚ))
    (inv_map : List (Int × String)) (has_rescaling : Bool) (img : PILImage)
    (probs : List ℚ)
    (hprobs : probs
      = (modelPredict
          (preprocess_image convertResize img IMG_SIZE (!has_rescaling))).getD
        0 [])
    (hne : probs ≠ [])
    (hrange : ∀ p ∈ probs, 0 ≤ p ∧ p ≤ 1)
    (hcover : ∀ i, i < probs.length →
      invGet inv_map (Int.ofNat i) ≠ none) :
    (scan_image convertResize modelPredict inv_map has_rescaling img).label
      ∈ inv_map.map Prod.snd ∧
    0 ≤ (scan_image convertResize modelPredict inv_map has_rescaling
          img).prob ∧
    (scan_image convertResize modelPredict inv_map has_rescaling img).prob
      ≤ 1 := by
  have hscan : scan_image convertResize modelPredict inv_map has_rescaling img
      = inferStep probs inv_map := by
    rw [scan_image, hprobs]
  have htop : np_argmax probs < probs.length := np_argmax_lt probs hne
  have hmem : probs.getD (np_argmax probs) 0 ∈ probs := by
    rw [List.getD_eq_getElem probs 0 htop]
    exact List.getElem_mem htop
  refine ⟨?_, ?_, ?_⟩
  · rw [hscan]
    rcases Option.ne_none_iff_exists.mp
        (hcover (np_argmax probs) htop) with ⟨v, hv⟩
    have hlabel : (inferStep probs inv_map).label = v := by
      show (invGet inv_map (Int.ofNat (np_argmax probs))).getD
          (toString (np_argmax probs)) = v
      rw [← hv, Option.getD_some]
    rw [hlabel]
    exact invGet_mem_values inv_map (Int.ofNat (np_argmax probs)) v hv.symm
  · rw [hscan]
    exact (hrange _ hmem).1
  · rw [hscan]
    exact (hrange _ hmem).2

theorem C3_scan_label_in_mapping_witness :
    (scan_image (fun _ s => ⟨s.1, s.2, 3, fun _ _ _ => 0⟩)
        (fun _ => [[1]]) [((0 : Int), "Apple_Healthy")] true
        ⟨1, 1, 3, fun _ _ _ => 0⟩).label
      ∈ ([((0 : Int), "Apple_Healthy")]).map Prod.snd ∧
    0 ≤ (scan_image (fun _ s => ⟨s.1, s.2, 3, fun _ _ _ => 0⟩)
        (fun _ => [[1]]) [((0 : Int), "Apple_Healthy")] true
        ⟨1, 1, 3, fun _ _ _ => 0⟩).prob ∧
    (scan_image (fun _ s => ⟨s.1, s.2, 3, fun _ _ _ => 0⟩)
        (fun _ => [[1]]) [((0 : Int), "Apple_Healthy")] true
        ⟨1, 1, 3, fun _ _ _ => 0⟩).prob ≤ 1 :=
  C3_scan_label_in_mapping (fun _ s => ⟨s.1, s.2, 3, fun _ _ _ => 0⟩)
    (fun _ => [[1]]) [((0 : Int), "Apple_Healthy")] true
    ⟨1, 1, 3, fun _ _ _ => 0⟩ [1] rfl (by decide) (by decide) (by decide)

lemma getD_range_map {α : Type} (n : ℕ) (f : ℕ → α) (i : ℕ) (d : α)
    (h : i < n) : ((List.range n).map f).getD i d = f i := by
  have hlen : i < ((List.range n).map f).length := by simpa using h
  rw [List.getD_eq_getElem _ _ hlen]
  simp

/-- C8: for every input image, target width and height and rescale flag,
provided the external convert-to-RGB-and-resize operation meets its
contract (result has the target width and height and 3 channels), the
preprocessor produces a tensor of shape (1, height, width, 3) whose entry
at (0, y, x, c) is the pixel intensity divided by 255 when `do_rescale`
is set and the raw intensity otherwise. -/
theorem C8_preprocess_shape (convertResize : PILImage → ℕ × ℕ → PILImage)
    (image : PILImage) (tw th : ℕ) (do_rescale : Bool) (y x c : ℕ)
    (hw : (convertResize image (tw, th)).width = tw)
    (hh : (convertResize image (tw, th)).height = th)
    (hc : (convertResize image (tw, th)).channels = 3)
    (hy : y < th) (hx : x < tw) (hcc : c < 3) :
    (preprocess_image convertResize image (tw, th) do_rescale).length = 1 ∧
    ((preprocess_image convertResize image (tw, th) do_rescale).getD
        0 []).length = th ∧
    (((preprocess_image convertResize image (tw, th) do_rescale).getD
        0 []).getD y []).length = tw ∧
    ((((preprocess_image convertResize image (tw, th) do_rescale).getD
        0 []).getD y []).getD x []).length = 3 ∧
    (((((preprocess_image convertResize image (tw, th) do_rescale).getD
        0 []).getD y []).getD x []).getD c 0)
      = (if do_rescale
          then ((convertResize image (tw, th)).pix x y c : ℚ) / 255
          else ((convertResize image (tw, th)).pix x y c : ℚ)) := by
  have h0 : (preprocess_image convertResize image (tw, th) do_rescale).getD
      0 [] = np_image_array (convertResize image (tw, th)) do_rescale := rfl
  have hrow : (np_image_array (convertResize image (tw, th))
      do_rescale).getD y []
      = (List.range (convertResize image (tw, th)).width).map (fun x0 =>
          (List.range (convertResize image (tw, th)).channels).map (fun c0 =>
            if do_rescale
              then ((convertResize image (tw, th)).pix x0 y c0 : ℚ) / 255
              else ((convertResize image (tw, th)).pix x0 y c0 : ℚ))) := by
    rw [np_image_array]
    exact getD_range_map _ _ y [] (by rw [hh]; exact hy)
  have hcell : ((np_image_array (convertResize image (tw, th))
      do_rescale).getD y []).getD x []
      = (List.range (convertResize image (tw, th)).channels).map (fun c0 =>
          if do_rescale
            then ((convertResize image (tw, th)).pix x y c0 : ℚ) / 255
            else ((convertResize image (tw, th)).pix x y c0 : ℚ)) := by
    rw [hrow]
    exact getD_range_map _ _ x [] (by rw [hw]; exact hx)
  refine ⟨rfl, ?_, ?_, ?_, ?_⟩
  · rw [h0, np_image_array]
    simp [hh]
  · rw [h0, hrow]
    simp [hw]
  · rw [h0, hcell]
    simp [hc]
  · rw [h0, hcell]
    exact getD_range_map _ _ c 0 (by rw [hc]; exact hcc)

theorem C8_preprocess_shape_witness :
    (0 : ℕ) < 1 ∧ (1 : ℕ) < 2 ∧ (2 : ℕ) < 3 ∧
    (((((preprocess_image (fun _ s => ⟨s.1, s.2, 3, fun _ _ _ => 100⟩)
        ⟨5, 4, 3, fun _ _ _ => 7⟩ (2, 1) true).getD 0 []).getD 0 []).getD
        1 []).getD 2 0)
      = (if true
          then (((fun (_ : PILImage) (s : ℕ × ℕ) =>
              (⟨s.1, s.2, 3, fun _ _ _ => 100⟩ : PILImage))
              ⟨5, 4, 3, fun _ _ _ => 7⟩ (2, 1)).pix 1 0 2 : ℚ) / 255
          else (((fun (_ : PILImage) (s : ℕ × ℕ) =>
              (⟨s.1, s.2, 3, fun _ _ _ => 100⟩ : PILImage))
              ⟨5, 4, 3, fun _ _ _ => 7⟩ (2, 1)).pix 1 0 2 : ℚ)) :=
  ⟨by decide, by decide, by decide,
   (C8_preprocess_shape (fun _ s => ⟨s.1, s.2, 3, fun _ _ _ => 100⟩)
      ⟨5, 4, 3, fun _ _ _ => 7⟩ 2 1 true 0 1 2 rfl rfl rfl (by decide)
      (by decide) (by decide)).2.2.2.2⟩

/-- The environment visible to `load_model_and_labels`: whether the model
file and the labels file exist on disk, the parsed JSON object of the
labels file (stringified class index → label), and the class names of the
loaded model's layers. -/
structure LoaderEnv where
  modelExists : Bool
  labelsExists : Bool
  labelsDoc : List (String × String)
  modelLayers : List String

/-- Failure modes of the loader: the `FileNotFoundError` raised on a
missing file (app.py lines 52 and 56), or the `ValueError` Python's
`int(k)` raises on a non-numeric key. -/
inductive LoadError where
  | FileNotFoundError : String → LoadError
  | ValueError : LoadError

/-- Accumulate the decimal value of a digit string; `none` on any
non-digit character. -/
def parseNatGo : List Char → ℕ → Option ℕ
  | [], acc => some acc
  | ch :: cs, acc =>
      if ch.isDigit then parseNatGo cs (acc * 10 + (ch.toNat - 48))
      else none

/-- A non-empty all-digit string's value. -/
def parseNatDigits : List Char → Option ℕ
  | [] => none
  | ch :: cs => parseNatGo (ch :: cs) 0

/-- Python `int(k)` on a canonical decimal string (optional leading
minus sign). -/
def pyInt (s : String) : Option Int :=
  match s.toList with
  | '-' :: rest => (parseNatDigits rest).map (fun n => -(n : Int))
  | l => (parseNatDigits l).map (fun n => (n : Int))

/-- The key coercion `{int(k): v for k, v in inv_map.items()}`
(app.py line 59); `none` when some key is not a valid integer literal. -/
def coerceKeys : List (String × String) → Option (List (Int × String))
  | [] => some []
  | (k, v) :: rest =>
      match pyInt k with
      | some i => (coerceKeys rest).map (fun r => (i, v) :: r)
      | none => none

/-- The per-layer test of app.py line 60: the layer's class name contains
"Rescaling" or "Preprocessing". -/
def layerRescales (name : String) : Bool :=
  containsSub name "Rescaling" || containsSub name "Preprocessing"

/-- `load_model_and_labels` (app.py lines 50-61): raise `FileNotFoundError`
if the model file is missing; load the model; raise `FileNotFoundError` if
the labels file is missing; parse it and coerce its keys to integers;
detect an internal rescaling/preprocessing layer.  The loaded classifier
is represented by its layer-class-name list. -/
def load_model_and_labels (env : LoaderEnv) :
    Except LoadError (List String × List (Int × String) × Bool) :=
  if env.modelExists = false then
    Except.error (LoadError.FileNotFoundError "Model not found")
  else if env.labelsExists = false then
    Except.error (LoadError.FileNotFoundError "Labels file not found")
  else
    match coerceKeys env.labelsDoc with
    | some inv_map =>
        Except.ok (env.modelLayers, inv_map, env.modelLayers.any layerRescales)
    | none => Except.error LoadError.ValueError

/-- C6: the loader fails with a file-not-found error when the model file or
the labels file is absent; when both exist (and the labels document's keys
are valid integer literals, as the documented file format guarantees) it
returns the classifier, the integer-keyed label mapping obtained by key
coercion, and the boolean recording whether some model layer is an internal
rescaling/preprocessing layer. -/
theorem C6_loader_behaviour (env : LoaderEnv) :
    (env.modelExists = false →
      load_model_and_labels env
        = Except.error (LoadError.FileNotFoundError "Model not found")) ∧
    (env.modelExists = true → env.labelsExists = false →
      load_model_and_labels env
        = Except.error (LoadError.FileNotFoundError "Labels file not found")) ∧
    (∀ m, env.modelExists = true → env.labelsExists = true →
      coerceKeys env.labelsDoc = some m →
      load_model_and_labels env
        = Except.ok (env.modelLayers, m,
            env.modelLayers.any layerRescales)) := by
  refine ⟨?_, ?_, ?_⟩
  · intro hm
    rw [load_model_and_labels, if_pos hm]
  · intro hm hl
    rw [load_model_and_labels, if_neg (by simp [hm]),
      if_pos hl]
  · intro m hm hl hk
    rw [load_model_and_labels,
      if_neg (by simp [hm]),
      if_neg (by simp [hl]), hk]

theorem C6_loader_behaviour_witness :
    coerceKeys [("0", "Apple_Healthy"), ("1", "Apple_Rotten")]
      = some [((0 : Int), "Apple_Healthy"), (1, "Apple_Rotten")] ∧
    load_model_and_labels
        ⟨true, true, [("0", "Apple_Healthy"), ("1", "Apple_Rotten")],
          ["InputLayer", "Rescaling", "Conv2D"]⟩
      = Except.ok (["InputLayer", "Rescaling", "Conv2D"],
          [((0 : Int), "Apple_Healthy"), (1, "Apple_Rotten")],
          (["InputLayer", "Rescaling", "Conv2D"]).any layerRescales) :=
  ⟨by decide,
   (C6_loader_behaviour
      ⟨true, true, [("0", "Apple_Healthy"), ("1", "Apple_Rotten")],
        ["InputLayer", "Rescaling", "Conv2D"]⟩).2.2
     [((0 : Int), "Apple_Healthy"), (1, "Apple_Rotten")] rfl rfl (by decide)⟩

end FFC2
